import Mathlib

/-!
# Verification of `honeypot.py`

A shallow embedding of the honeypot program (`src/honeypot.py`) and proofs
about its behaviour.

Modelling conventions:
* Byte strings (`bytes`) are `List Nat` with each element a byte value.
* Text (`str`) is represented as a list of Unicode code points (`List Nat`);
  a Lean `String` is converted to that form by `strCodes`.
* Python `int` is Lean `Int` (arbitrary precision).
* I/O outcomes (socket reads/writes, file writes) are supplied as explicit
  inputs, and the side effects a function performs are returned as a trace
  of actions.
* Python string helpers (`strip`, `int(...)`, truthiness) are modelled for
  ASCII input, which covers every string the program manipulates.
-/

namespace Honeypot

/-- Code points of a Lean string; the model of a Python `str` value. -/
def strCodes (s : String) : List Nat := s.data.map Char.toNat

/-- UTF-8 encoding of a single code point (the scalar-value ranges of the
standard encoding; Python's `str.encode()` on valid text). -/
def utf8EncodeChar (v : Nat) : List Nat :=
  if v ≤ 0x7F then [v]
  else if v ≤ 0x7FF then [0xC0 + v / 0x40, 0x80 + v % 0x40]
  else if v ≤ 0xFFFF then
    [0xE0 + v / 0x1000, 0x80 + (v / 0x40) % 0x40, 0x80 + v % 0x40]
  else
    [0xF0 + v / 0x40000, 0x80 + (v / 0x1000) % 0x40,
     0x80 + (v / 0x40) % 0x40, 0x80 + v % 0x40]

/-- UTF-8 encoding of a sequence of code points. -/
def utf8Encode (vs : List Nat) : List Nat := vs.flatMap utf8EncodeChar

/-- Model of Python `s.encode()` (UTF-8) on a text literal. -/
def pyEncode (s : String) : List Nat := utf8Encode (strCodes s)

/-- ASCII whitespace, as recognised by Python's `str.strip()` /
`str.isspace()` on ASCII text. -/
def pyIsSpace (c : Char) : Bool :=
  c = ' ' || c = '\t' || c = '\n' || c = '\r' || c = '\x0b' || c = '\x0c'

/-- Truthiness of `p.strip()`: true iff `p` contains a non-whitespace
character. -/
def pyStripNonempty (cs : List Char) : Bool :=
  cs.any (fun c => !(pyIsSpace c))

/-- Model of Python `s.split(',')` on the character list of `s`
(`"".split(',') == ['']`, a separator at either end yields an empty
entry). -/
def splitComma : List Char → List (List Char)
  | [] => [[]]
  | ',' :: rest => [] :: splitComma rest
  | c :: rest =>
    match splitComma rest with
    | g :: gs => (c :: g) :: gs
    | [] => [[c]]

/-- Strip leading and trailing whitespace from a character list (the
whitespace removal `int()` performs on its string argument). -/
def stripChars (cs : List Char) : List Char :=
  ((cs.dropWhile pyIsSpace).reverse.dropWhile pyIsSpace).reverse

/-- Digit-run parser for Python `int()`: digits with single underscores
allowed strictly between digits. `acc` is the value of the digits already
consumed. Returns `none` on any malformed input (→ `ValueError`). -/
def pyIntDigits : List Char → Nat → Option Nat
  | [], acc => some acc
  | '_' :: c :: rest, acc =>
    if c.isDigit then pyIntDigits rest (acc * 10 + (c.toNat - 48)) else none
  | ['_'], _ => none
  | c :: rest, acc =>
    if c.isDigit then pyIntDigits rest (acc * 10 + (c.toNat - 48)) else none

/-- Unsigned part of Python `int()`: at least one leading digit, then a
digit run. -/
def pyIntNat : List Char → Option Nat
  | [] => none
  | c :: rest =>
    if c.isDigit then pyIntDigits rest (c.toNat - 48) else none

/-- Model of Python `int(s)` for base 10 on ASCII text: surrounding
whitespace stripped, optional sign, digits with underscore separators;
`none` models `ValueError`. -/
def pyInt (cs : List Char) : Option Int :=
  match stripChars cs with
  | '+' :: rest => (pyIntNat rest).map Int.ofNat
  | '-' :: rest => (pyIntNat rest).map (fun n => -(Int.ofNat n))
  | rest => (pyIntNat rest).map Int.ofNat

/-- `Honeypot.DEFAULT_PORTS`. -/
def DEFAULT_PORTS : List Int := [21, 22, 80, 443]

/-- The list comprehension
`[int(p) for p in env_ports.split(',') if p.strip()]`:
`none` models the `ValueError` raised when some kept entry is not an
integer literal. -/
def tryParsePorts (s : String) : Option (List Int) :=
  ((splitComma s.data).filter (fun p => pyStripNonempty p)).mapM pyInt

/-- Result of the port-determination logic in `Honeypot.__init__`:
the port list chosen and whether the invalid-value warning was printed. -/
structure InitPorts where
  ports : List Int
  warned : Bool
deriving DecidableEq, Repr

/-- Port determination in `Honeypot.__init__` when no explicit `ports`
argument is given: `env` is the value of `os.getenv("HONEYPOT_PORTS")`
(`none` when unset). An unset or empty variable is falsy, so the defaults
are used silently; otherwise the comprehension runs and a `ValueError`
prints a warning and falls back to the defaults. -/
def determinePorts (env : Option String) : InitPorts :=
  match env with
  | none => ⟨DEFAULT_PORTS, false⟩
  | some s =>
    if s = "" then ⟨DEFAULT_PORTS, false⟩
    else
      match tryParsePorts s with
      | some ps => ⟨ps, false⟩
      | none => ⟨DEFAULT_PORTS, true⟩

/-- Is `b` a UTF-8 continuation byte (`0x80..0xBF`)? -/
def isCont (b : Nat) : Bool := 0x80 ≤ b && b ≤ 0xBF

/-- Model of Python `data.decode('utf-8', errors='ignore')`: bytes in,
code points out. Follows CPython's decoder: on an invalid sequence the
maximal valid prefix of the sequence is skipped (1, 2 or 3 bytes) and
decoding resumes; with `errors='ignore'` the skipped bytes contribute
nothing. A sequence truncated by the end of input is likewise dropped.
Overlong encodings, surrogates and values above `0x10FFFF` are rejected
at the earliest offending byte, as CPython does. -/
def utf8DecodeIgnoreFuel : Nat → List Nat → List Nat
  | 0, _ => []
  | _, [] => []
  | fuel + 1, b :: t =>
    if b ≤ 0x7F then b :: utf8DecodeIgnoreFuel fuel t
    else if b ≤ 0xC1 then utf8DecodeIgnoreFuel fuel t
    else if b ≤ 0xDF then
      match t with
      | [] => []
      | c1 :: t1 =>
        if isCont c1 then
          ((b - 0xC0) * 0x40 + (c1 - 0x80)) :: utf8DecodeIgnoreFuel fuel t1
        else utf8DecodeIgnoreFuel fuel t
    else if b ≤ 0xEF then
      match t with
      | [] => []
      | c1 :: t1 =>
        if (if b = 0xE0 then 0xA0 else 0x80) ≤ c1 ∧
           c1 ≤ (if b = 0xED then 0x9F else 0xBF) then
          match t1 with
          | [] => []
          | c2 :: t2 =>
            if isCont c2 then
              ((b - 0xE0) * 0x1000 + (c1 - 0x80) * 0x40 + (c2 - 0x80)) ::
                utf8DecodeIgnoreFuel fuel t2
            else utf8DecodeIgnoreFuel fuel t1
        else utf8DecodeIgnoreFuel fuel t
    else if b ≤ 0xF4 then
      match t with
      | [] => []
      | c1 :: t1 =>
        if (if b = 0xF0 then 0x90 else 0x80) ≤ c1 ∧
           c1 ≤ (if b = 0xF4 then 0x8F else 0xBF) then
          match t1 with
          | [] => []
          | c2 :: t2 =>
            if isCont c2 then
              match t2 with
              | [] => []
              | c3 :: t3 =>
                if isCont c3 then
                  ((b - 0xF0) * 0x40000 + (c1 - 0x80) * 0x1000 +
                     (c2 - 0x80) * 0x40 + (c3 - 0x80)) ::
                    utf8DecodeIgnoreFuel fuel t3
                else utf8DecodeIgnoreFuel fuel t2
            else utf8DecodeIgnoreFuel fuel t1
        else utf8DecodeIgnoreFuel fuel t
    else utf8DecodeIgnoreFuel fuel t

/-- `utf8DecodeIgnoreFuel` with enough fuel: every step consumes at least
one byte, so `bs.length` steps always finish the input. -/
def utf8DecodeIgnore (bs : List Nat) : List Nat :=
  utf8DecodeIgnoreFuel bs.length bs

/-- An Activity Record as written by `Honeypot.log_activity`: the JSON
object `{timestamp, remote_ip, port, data}`; `data` is the permissive
decoding of the received bytes. -/
structure LogEntry where
  timestamp : String
  remote_ip : String
  port : Int
  data : List Nat
deriving DecidableEq, Repr

/-- The `entry` dictionary built at the top of `log_activity`. -/
def mkEntry (now ip : String) (port : Int) (data : List Nat) : LogEntry :=
  ⟨now, ip, port, utf8DecodeIgnore data⟩

/-- What a call to `log_activity` did: the record appended to the log
file (if the write succeeded) and whether the failure message was printed
to the console. -/
structure LogOutcome where
  appended : Option LogEntry
  consoleError : Bool
deriving DecidableEq, Repr

/-- The `try` body of `log_activity`: opening the log file and writing
the entry, which the environment may make fail (`writeOk = false` models
an `OSError` such as disk full or permission denied). -/
def appendEntry (writeOk : Bool) (e : LogEntry) : Except String LogEntry :=
  if writeOk then Except.ok e else Except.error "write failed"

/-- `Honeypot.log_activity`, with the propagation of exceptions made
explicit: an uncaught exception would be `Except.error`. The `except`
clause catches every exception of the `try` body and only prints, so the
function always returns `Except.ok`. -/
def log_activityE (now ip : String) (port : Int) (data : List Nat)
    (writeOk : Bool) : Except String LogOutcome :=
  let entry := mkEntry now ip port data
  match appendEntry writeOk entry with
  | Except.ok e => Except.ok ⟨some e, false⟩
  | Except.error _ => Except.ok ⟨none, true⟩

/-- The value `log_activity` returns to its caller. -/
def log_activity (now ip : String) (port : Int) (data : List Nat)
    (writeOk : Bool) : LogOutcome :=
  match log_activityE now ip port data writeOk with
  | Except.ok out => out
  | Except.error _ => ⟨none, true⟩

/-- `Honeypot.service_banners` (the dictionary local to
`handle_connection`) looked up with `.get(port)`. -/
def service_banners (port : Int) : Option String :=
  if port = 21 then some "220 FTP server ready\r\n"
  else if port = 22 then some "SSH-2.0-OpenSSH_8.2p1 Ubuntu-4ubuntu0.1\r\n"
  else if port = 80 then
    some "HTTP/1.1 200 OK\r\nServer: Apache/2.4.41 (Ubuntu)\r\n\r\n"
  else if port = 443 then
    some "HTTP/1.1 200 OK\r\nServer: Apache/2.4.41 (Ubuntu)\r\n\r\n"
  else none

/-- The reply sent after every logged chunk:
`b"Command not recognized.\r\n"`. -/
def replyBytes : List Nat := pyEncode "Command not recognized.\r\n"

/-- Outcome of one `client_socket.recv(1024)` call: it returned a byte
string (`[]` models `b''`, i.e. EOF), or it raised. -/
inductive RecvOutcome where
  | bytes (d : List Nat)
  | err
deriving DecidableEq, Repr

/-- Environment inputs for one iteration of the `while True` loop of
`handle_connection`: what `recv` did, the timestamp taken if a record is
built, whether the log-file write succeeds, and whether the reply
`sendall` succeeds. -/
structure Iter where
  recvd : RecvOutcome
  now : String
  writeOk : Bool
  sendOk : Bool
deriving DecidableEq, Repr

/-- One observable action of `handle_connection`, in program order. -/
inductive Action where
  | send (b : List Nat)
  | recvRet (d : List Nat)
  | logCall (e : LogEntry) (writeOk : Bool)
  | conErr
  | close
deriving DecidableEq, Repr

/-- The `while True` loop of `handle_connection`. Returns the trace of
actions and whether control left the loop (`false` when the supplied
iteration list ran out while the handler was still inside the loop).
A `recv` that raises is caught by the surrounding `except`, which prints;
`if not data: break` ends the loop on `b''`; otherwise `log_activity` is
called, then the fixed reply is sent, a failure of which is likewise
caught by the `except`. -/
def runLoop (ip : String) (port : Int) : List Iter → List Action × Bool
  | [] => ([], false)
  | it :: rest =>
    match it.recvd with
    | RecvOutcome.err => ([Action.conErr], true)
    | RecvOutcome.bytes d =>
      if d = [] then ([Action.recvRet []], true)
      else
        let hd := [Action.recvRet d,
                   Action.logCall (mkEntry it.now ip port d) it.writeOk,
                   Action.send replyBytes]
        if it.sendOk then
          (hd ++ (runLoop ip port rest).1, (runLoop ip port rest).2)
        else (hd ++ [Action.conErr], true)

/-- The `try` body of `handle_connection`: banner phase (a `sendall` of
the banner when the port has a truthy entry; a failure is caught by the
`except`, which prints), then the receive loop. -/
def handlerBody (ip : String) (port : Int) (bannerSendOk : Bool)
    (iters : List Iter) : List Action × Bool :=
  match service_banners port with
  | some banner =>
    if strCodes banner = [] then runLoop ip port iters
    else if bannerSendOk then
      (Action.send (pyEncode banner) :: (runLoop ip port iters).1,
       (runLoop ip port iters).2)
    else ([Action.send (pyEncode banner), Action.conErr], true)
  | none => runLoop ip port iters

/-- `Honeypot.handle_connection`: the `try` body, then the `finally`
close — which runs exactly when control leaves the `try` body. -/
def handle_connection (ip : String) (port : Int) (bannerSendOk : Bool)
    (iters : List Iter) : List Action × Bool :=
  ((handlerBody ip port bannerSendOk iters).1 ++
     (if (handlerBody ip port bannerSendOk iters).2 then
       [Action.close] else []),
   (handlerBody ip port bannerSendOk iters).2)

/-- Outcome of one `server.accept()` call in `start_listener`. -/
inductive AcceptEvent where
  | conn (ip : String) (rport : Int)
  | err
deriving DecidableEq, Repr

/-- One observable action of `start_listener`. -/
inductive LAction where
  | listenMsg
  | acceptMsg (ip : String) (rport : Int)
  | spawnHandler (ip : String) (port : Int)
  | errMsg
deriving DecidableEq, Repr

/-- The accept loop of `start_listener`. The whole loop sits inside the
single `try` of `start_listener`, so the first `accept` failure raises
out of the loop to the `except`, which prints and returns: the loop never
continues past an error. -/
def listenLoop (port : Int) : List AcceptEvent → List LAction
  | [] => []
  | AcceptEvent.conn ip rp :: rest =>
    LAction.acceptMsg ip rp :: LAction.spawnHandler ip port ::
      listenLoop port rest
  | AcceptEvent.err :: _ => [LAction.errMsg]

/-- `Honeypot.start_listener`: bind/listen (whose failure also lands in
the one `except`), then the accept loop. -/
def start_listener (port : Int) (bindOk : Bool)
    (events : List AcceptEvent) : List LAction :=
  if bindOk then LAction.listenMsg :: listenLoop port events
  else [LAction.errMsg]

/-- Is this action a write of bytes to the peer? -/
def isSend : Action → Bool
  | Action.send _ => true
  | _ => false

/-- Is this action a completed `recv`? -/
def isRecvRet : Action → Bool
  | Action.recvRet _ => true
  | _ => false

/-- Is this action a Log Sink submission or a write to the peer? -/
def isInteraction : Action → Bool
  | Action.logCall _ _ => true
  | Action.send _ => true
  | _ => false

/-- The subsequence of a trace consisting of Log Sink submissions and
writes to the peer, in order. -/
def interactions (as : List Action) : List Action := as.filter isInteraction

/-- The non-empty chunks the receive loop actually processes, each with
its timestamp and log-write outcome: processing stops at the first EOF,
`recv` error, or failed reply send. -/
def processedChunks : List Iter → List (String × List Nat × Bool)
  | [] => []
  | it :: rest =>
    match it.recvd with
    | RecvOutcome.err => []
    | RecvOutcome.bytes d =>
      if d = [] then []
      else (it.now, d, it.writeOk) ::
        (if it.sendOk then processedChunks rest else [])

/-- The banner writes the handler performs (one attempt when the port has
an entry, none otherwise). -/
def bannerTrace (port : Int) : List Action :=
  match service_banners port with
  | some b => [Action.send (pyEncode b)]
  | none => []

/-- Does control reach the receive loop? (Yes unless a configured banner
failed to send.) -/
def bannerRuns (port : Int) (bannerSendOk : Bool) : Bool :=
  match service_banners port with
  | some _ => bannerSendOk
  | none => true

/-- Erase the log-write outcome recorded on `logCall` actions; two traces
equal after erasure differ at most in log-write outcomes. -/
def eraseW (as : List Action) : List Action :=
  as.map fun a =>
    match a with
    | Action.logCall e _ => Action.logCall e true
    | a => a

end Honeypot

namespace Honeypot

example : determinePorts (some "21,,80") = ⟨[21, 80], false⟩ := by decide

example : utf8DecodeIgnore [255, 97] = strCodes "a" := by decide

example : utf8DecodeIgnore [0xC3, 0xA9] = [0xE9] := by decide

example : utf8DecodeIgnore [0xE0, 0x80, 0x80] = [] := by decide

example : utf8DecodeIgnore [0xED, 0xBF, 0x41] = [0x41] := by decide

example : utf8DecodeIgnore [0xF0, 0x9F, 0x98, 0x80] = [0x1F600] := by decide

example : utf8DecodeIgnore [0x41, 0xC2] = [0x41] := by decide

example : determinePorts (some " , ") = ⟨[], false⟩ := by decide

example : determinePorts (some "abc") = ⟨DEFAULT_PORTS, true⟩ := by decide

example : determinePorts (some "70000,70000") = ⟨[70000, 70000], false⟩ := by
  decide

/-- C10: when parsing the `HONEYPOT_PORTS` override, empty and
whitespace-only entries between commas are silently skipped: `"21,,80"`
and `"21, ,80"` both yield the port list `[21, 80]`, with no warning and
no fallback to the defaults. -/
theorem empty_entries_skipped_in_port_override :
    determinePorts (some "21,,80") = ⟨[21, 80], false⟩ ∧
    determinePorts (some "21, ,80") = ⟨[21, 80], false⟩ := by
  decide

/-- C5 counterexample: for the override `" , "` — a string whose entries
are all empty/whitespace — the claim predicts a warning and fallback to
`[21, 22, 80, 443]`; the code instead starts with the empty port list and
prints no warning. -/
theorem whitespace_override_no_fallback_cex :
    determinePorts (some " , ") = ⟨[], false⟩ ∧
    (⟨[], false⟩ : InitPorts) ≠ ⟨DEFAULT_PORTS, false⟩ ∧
    (⟨[], false⟩ : InitPorts) ≠ ⟨DEFAULT_PORTS, true⟩ := by
  decide

/-- C5 amended: an unset or empty-string override silently falls back to
the defaults (no warning is printed); an override whose kept entries fail
integer parsing (a `ValueError`) prints the warning and falls back to
`[21, 22, 80, 443]`; but an override whose comma-separated entries are
all empty or whitespace yields the empty port list, with no warning and
no fallback. -/
theorem port_override_fallback_behavior (s : String) :
    determinePorts none = ⟨DEFAULT_PORTS, false⟩ ∧
    determinePorts (some "") = ⟨DEFAULT_PORTS, false⟩ ∧
    (s ≠ "" → tryParsePorts s = none →
      determinePorts (some s) = ⟨DEFAULT_PORTS, true⟩) ∧
    (s ≠ "" → (∀ p ∈ splitComma s.data, pyStripNonempty p = false) →
      determinePorts (some s) = ⟨[], false⟩) := by
  refine ⟨rfl, by decide, fun hne hparse => ?_, fun hne hall => ?_⟩
  · simp only [determinePorts, if_neg hne, hparse]
  · have hfilter :
        (splitComma s.data).filter (fun p => pyStripNonempty p) = [] := by
      rw [List.filter_eq_nil_iff]
      intro p hp
      simp [hall p hp]
    have hparse : tryParsePorts s = some [] := by
      simp only [tryParsePorts, hfilter]
      rfl
    simp only [determinePorts, if_neg hne, hparse]

/-- Witness for the amended C5 at concrete inputs: `"abc"` (invalid
entry) warns and falls back; `" , "` (all-whitespace entries) yields the
empty list silently. -/
theorem port_override_fallback_behavior_witness :
    determinePorts (some "abc") = ⟨DEFAULT_PORTS, true⟩ ∧
    determinePorts (some " , ") = ⟨[], false⟩ :=
  ⟨(port_override_fallback_behavior "abc").2.2.1 (by decide) (by decide),
   (port_override_fallback_behavior " , ").2.2.2 (by decide)
     (by decide)⟩

/-- C8 counterexample: with the override `"70000,70000"` the Supervisor
starts with the port list `[70000, 70000]`, which has a duplicate and an
entry outside `1–65535` — the claimed invariant fails for overridden
configurations. -/
theorem override_ports_unvalidated_cex :
    (determinePorts (some "70000,70000")).ports = [70000, 70000] ∧
    ¬ (determinePorts (some "70000,70000")).ports.Nodup ∧
    ¬ (∀ p ∈ (determinePorts (some "70000,70000")).ports,
        1 ≤ p ∧ p ≤ 65535) := by
  refine ⟨by decide, by decide, fun h => ?_⟩
  have := h 70000 (by decide)
  omega

/-- C8 amended: the built-in default list does consist of distinct
integers in 1–65535, but a successfully parsed override is used exactly
as parsed, with no range or duplicate validation. -/
theorem default_ports_valid_override_unvalidated (s : String)
    (ps : List Int) :
    DEFAULT_PORTS.Nodup ∧
    (∀ p ∈ DEFAULT_PORTS, 1 ≤ p ∧ p ≤ 65535) ∧
    (s ≠ "" → tryParsePorts s = some ps →
      (determinePorts (some s)).ports = ps) := by
  refine ⟨by decide, by decide, fun hne hparse => ?_⟩
  simp only [determinePorts, if_neg hne, hparse]

/-- Witness for the amended C8: the override `"70000,-3"` parses and is
used as-is, out-of-range entries included. -/
theorem default_ports_valid_override_unvalidated_witness :
    (determinePorts (some "70000,-3")).ports = [70000, -3] :=
  (default_ports_valid_override_unvalidated "70000,-3" [70000, -3]).2.2
    (by decide) (by decide)

/-- C6 counterexample: with a transient `accept()` failure followed by a
perfectly acceptable incoming connection, the listener prints the error
and exits its loop — the later connection is never accepted or
dispatched, contradicting the claim that the loop continues after a
transient failure. -/
theorem listener_stops_after_transient_accept_error_cex :
    start_listener 21 true
        [AcceptEvent.err, AcceptEvent.conn "9.9.9.9" 1234] =
      [LAction.listenMsg, LAction.errMsg] ∧
    LAction.spawnHandler "9.9.9.9" 21 ∉
      start_listener 21 true
        [AcceptEvent.err, AcceptEvent.conn "9.9.9.9" 1234] := by
  decide

/-- C6 amended: the whole accept loop sits inside `start_listener`'s
single `try`, so any `accept()` failure — transient or not — causes the
listener to report the error and exit; events after the first error are
never processed. A bind failure likewise just reports and ends the
listener. -/
theorem listener_exits_on_accept_error (port : Int)
    (pre : List (String × Int)) (rest : List AcceptEvent) :
    start_listener port true
        (pre.map (fun x => AcceptEvent.conn x.1 x.2) ++
          AcceptEvent.err :: rest) =
      LAction.listenMsg ::
        ((pre.flatMap fun x =>
          [LAction.acceptMsg x.1 x.2, LAction.spawnHandler x.1 port]) ++
          [LAction.errMsg]) ∧
    start_listener port false rest = [LAction.errMsg] := by
  constructor
  · simp only [start_listener, if_pos]
    induction pre with
    | nil => simp [listenLoop]
    | cons x xs ih =>
      simpa [listenLoop] using ih
  · rfl

/-- Every banner in the table is a non-empty (hence truthy) string. -/
lemma banner_nonempty {port : Int} {b : String}
    (h : service_banners port = some b) : strCodes b ≠ [] := by
  unfold service_banners at h
  split_ifs at h <;> simp only [Option.some.injEq] at h <;>
    (subst h; decide)

/-- The Log Sink submissions and peer writes of the receive loop are
exactly one record submission followed by one reply send for each
processed chunk, in order. -/
lemma interactions_runLoop (ip : String) (port : Int)
    (iters : List Iter) :
    interactions (runLoop ip port iters).1 =
      (processedChunks iters).flatMap (fun t =>
        [Action.logCall (mkEntry t.1 ip port t.2.1) t.2.2,
         Action.send replyBytes]) := by
  induction iters with
  | nil => rfl
  | cons it rest ih =>
    cases h : it.recvd with
    | err =>
      simp [runLoop, processedChunks, h, interactions, isInteraction]
    | bytes d =>
      by_cases hd : d = []
      · simp [runLoop, processedChunks, h, hd, interactions, isInteraction]
      · by_cases hs : it.sendOk = true
        · simpa [runLoop, processedChunks, h, hd, hs, interactions,
            isInteraction] using ih
        · simp [runLoop, processedChunks, h, hd, hs, interactions,
            isInteraction]

/-- The receive loop itself never closes the socket. -/
lemma close_not_in_runLoop (ip : String) (port : Int)
    (iters : List Iter) : Action.close ∉ (runLoop ip port iters).1 := by
  induction iters with
  | nil => simp [runLoop]
  | cons it rest ih =>
    cases h : it.recvd with
    | err => simp [runLoop, h]
    | bytes d =>
      by_cases hd : d = []
      · simp [runLoop, h, hd]
      · by_cases hs : it.sendOk = true
        · simp [runLoop, h, hd, hs, ih]
        · simp [runLoop, h, hd, hs]


/-- A trace with no writes keeps having none under `takeWhile`. -/
lemma filter_send_takeWhile_nil (tail : List Action)
    (htail : tail.filter isSend = []) :
    (tail.takeWhile (fun a => !isRecvRet a)).filter isSend = [] :=
  List.filter_eq_nil_iff.mpr fun a ha =>
    List.filter_eq_nil_iff.mp htail a ((List.takeWhile_sublist _).subset ha)

/-- No write to the peer occurs in a loop trace (plus whatever follows
it) before the first completed `recv`. -/
lemma no_send_before_first_recv (ip : String) (port : Int)
    (iters : List Iter) (tail : List Action)
    (htail : tail.filter isSend = []) :
    (((runLoop ip port iters).1 ++ tail).takeWhile
        (fun a => !isRecvRet a)).filter isSend = [] := by
  cases iters with
  | nil => simpa [runLoop] using filter_send_takeWhile_nil tail htail
  | cons it rest =>
    cases h : it.recvd with
    | err =>
      simpa [runLoop, h, List.takeWhile_cons, isRecvRet, isSend] using
        filter_send_takeWhile_nil tail htail
    | bytes d =>
      by_cases hd : d = []
      · simp [runLoop, h, hd, List.takeWhile_cons, isRecvRet]
      · by_cases hs : it.sendOk = true <;>
          simp [runLoop, h, hd, hs, List.takeWhile_cons, isRecvRet]

/-- The Sink submissions and peer writes of the whole `try` body: the
banner attempt, then (when the loop runs) one record and one reply per
processed chunk. -/
lemma interactions_handlerBody (ip : String) (port : Int) (bOk : Bool)
    (iters : List Iter) :
    interactions (handlerBody ip port bOk iters).1 =
      bannerTrace port ++
        (if bannerRuns port bOk then
          (processedChunks iters).flatMap (fun t =>
            [Action.logCall (mkEntry t.1 ip port t.2.1) t.2.2,
             Action.send replyBytes])
         else []) := by
  cases h : service_banners port with
  | none =>
    simp only [handlerBody, h, bannerTrace, bannerRuns, List.nil_append,
      if_true]
    exact interactions_runLoop ip port iters
  | some b =>
    have hb := banner_nonempty h
    cases bOk with
    | false =>
      simp [handlerBody, h, if_neg hb, bannerTrace, bannerRuns,
        interactions, isInteraction]
    | true =>
      simp only [handlerBody, h, if_neg hb, if_true, bannerTrace,
        bannerRuns, interactions]
      rw [List.filter_cons_of_pos (by simp [isInteraction])]
      simpa [interactions] using interactions_runLoop ip port iters

/-- The `try` body never closes the socket itself. -/
lemma close_not_in_handlerBody (ip : String) (port : Int) (bOk : Bool)
    (iters : List Iter) :
    Action.close ∉ (handlerBody ip port bOk iters).1 := by
  have hloop := close_not_in_runLoop ip port iters
  cases h : service_banners port with
  | none => simpa [handlerBody, h] using hloop
  | some b =>
    have hb := banner_nonempty h
    cases bOk with
    | false => simp [handlerBody, h, if_neg hb]
    | true => simp [handlerBody, h, if_neg hb, hloop]

end Honeypot

namespace Honeypot

/-- C1: for every non-empty chunk the loop processes, exactly one
Activity Record is submitted to the Log Sink and then exactly one fixed
rejection reply is sent, record first, reply second; the reply is the
literal bytes of `"Command not recognized.\r\n"`. The full trace of Sink
submissions and peer writes is the banner attempt (if any) followed by
exactly the record/reply pair of each processed chunk, in order. -/
theorem handler_one_record_one_reply_per_chunk (ip : String)
    (port : Int) (bOk : Bool) (iters : List Iter) :
    interactions (handle_connection ip port bOk iters).1 =
      bannerTrace port ++
        (if bannerRuns port bOk then
          (processedChunks iters).flatMap (fun t =>
            [Action.logCall (mkEntry t.1 ip port t.2.1) t.2.2,
             Action.send replyBytes])
         else []) ∧
    replyBytes = [67, 111, 109, 109, 97, 110, 100, 32, 110, 111, 116,
      32, 114, 101, 99, 111, 103, 110, 105, 122, 101, 100, 46, 13,
      10] := by
  constructor
  · have hfin : interactions (handle_connection ip port bOk iters).1 =
        interactions (handlerBody ip port bOk iters).1 := by
      show ((handlerBody ip port bOk iters).1 ++ _).filter _ = _
      rw [List.filter_append]
      have : ((if (handlerBody ip port bOk iters).2 then [Action.close]
          else []) : List Action).filter isInteraction = [] := by
        cases h2 : (handlerBody ip port bOk iters).2 <;>
          simp [isInteraction]
      rw [this, List.append_nil]
      rfl
    rw [hfin, interactions_handlerBody]
  · decide

/-- C2: for every accepted connection on a port with a banner entry,
the very first action of the handler is the write of exactly that
banner's bytes (hence before any read); on any other port nothing is
written to the peer before the first completed read. The three distinct
banner strings encode to the exact byte sequences of the wire
contract. -/
theorem banner_sent_first_iff_configured (ip : String) (p : Int)
    (bOk : Bool) (iters : List Iter) :
    (∀ b, service_banners p = some b →
      (handle_connection ip p bOk iters).1.head? =
        some (Action.send (pyEncode b))) ∧
    (service_banners p = none →
      ((handle_connection ip p bOk iters).1.takeWhile
          (fun a => !isRecvRet a)).filter isSend = []) ∧
    pyEncode "220 FTP server ready\r\n" =
      [50, 50, 48, 32, 70, 84, 80, 32, 115, 101, 114, 118, 101, 114,
       32, 114, 101, 97, 100, 121, 13, 10] ∧
    pyEncode "SSH-2.0-OpenSSH_8.2p1 Ubuntu-4ubuntu0.1\r\n" =
      [83, 83, 72, 45, 50, 46, 48, 45, 79, 112, 101, 110, 83, 83, 72,
       95, 56, 46, 50, 112, 49, 32, 85, 98, 117, 110, 116, 117, 45, 52,
       117, 98, 117, 110, 116, 117, 48, 46, 49, 13, 10] ∧
    pyEncode "HTTP/1.1 200 OK\r\nServer: Apache/2.4.41 (Ubuntu)\r\n\r\n" =
      [72, 84, 84, 80, 47, 49, 46, 49, 32, 50, 48, 48, 32, 79, 75, 13,
       10, 83, 101, 114, 118, 101, 114, 58, 32, 65, 112, 97, 99, 104,
       101, 47, 50, 46, 52, 46, 52, 49, 32, 40, 85, 98, 117, 110, 116,
       117, 41, 13, 10, 13, 10] := by
  refine ⟨fun b hb => ?_, fun hn => ?_, by decide, by decide, by decide⟩
  · have hbne := banner_nonempty hb
    cases bOk with
    | false => simp [handle_connection, handlerBody, hb, if_neg hbne]
    | true => simp [handle_connection, handlerBody, hb, if_neg hbne]
  · simp only [handle_connection, handlerBody, hn]
    exact no_send_before_first_recv ip p iters _ (by
      cases h2 : (runLoop ip p iters).2 <;> simp [isSend])

/-- Witness for C2 at port 21 with one received chunk: the first trace
action is the FTP banner write. -/
theorem banner_sent_first_iff_configured_witness :
    (handle_connection "1.2.3.4" 21 true
        [⟨RecvOutcome.bytes [108, 115, 10], "t1", true, true⟩]).1.head? =
      some (Action.send (pyEncode "220 FTP server ready\r\n")) :=
  (banner_sent_first_iff_configured "1.2.3.4" 21 true
      [⟨RecvOutcome.bytes [108, 115, 10], "t1", true, true⟩]).1
    "220 FTP server ready\r\n" (by decide)

/-- C9: whenever control leaves the handler (EOF, banner-send failure,
`recv` error, or reply-send failure), the `finally` closes the socket:
the trace contains `close` exactly once, as its last action. While the
handler is still blocked inside the loop no close has happened. -/
theorem connection_closed_exactly_once (ip : String) (port : Int)
    (bOk : Bool) (iters : List Iter) :
    ((handle_connection ip port bOk iters).2 = true →
      (handle_connection ip port bOk iters).1.count Action.close = 1 ∧
      (handle_connection ip port bOk iters).1.getLast? =
        some Action.close) ∧
    ((handle_connection ip port bOk iters).2 = false →
      (handle_connection ip port bOk iters).1.count Action.close =
        0) := by
  have hc : (handlerBody ip port bOk iters).1.count Action.close = 0 :=
    List.count_eq_zero.mpr (close_not_in_handlerBody ip port bOk iters)
  constructor
  · intro hex
    have hex2 : (handlerBody ip port bOk iters).2 = true := hex
    constructor
    · show ((handlerBody ip port bOk iters).1 ++ _).count Action.close = 1
      rw [hex2]
      simp [List.count_append, hc]
    · show ((handlerBody ip port bOk iters).1 ++ _).getLast? =
        some Action.close
      rw [hex2]
      simp [List.getLast?_concat]
  · intro hex
    have hex2 : (handlerBody ip port bOk iters).2 = false := hex
    show ((handlerBody ip port bOk iters).1 ++ _).count Action.close = 0
    rw [hex2]
    simp [hc]

/-- Witness for C9: a session that ends by EOF closes exactly once, and
a session still blocked in the loop has not closed. -/
theorem connection_closed_exactly_once_witness :
    (handle_connection "1.2.3.4" 80 true
        [⟨RecvOutcome.bytes [], "t1", true, true⟩]).1.count Action.close
      = 1 ∧
    (handle_connection "1.2.3.4" 80 true []).1.count Action.close
      = 0 :=
  ⟨((connection_closed_exactly_once "1.2.3.4" 80 true
      [⟨RecvOutcome.bytes [], "t1", true, true⟩]).1 (by decide)).1,
   (connection_closed_exactly_once "1.2.3.4" 80 true []).2 (by decide)⟩

/-- C4: `log_activity` never raises into the caller: its embedding with
explicit exception propagation always returns `Except.ok`. On a write
failure it reports to the console, appends nothing, and returns
normally; and the handler's subsequent actions are identical whatever
the log-write outcome was — the connection is not torn down because
logging failed. -/
theorem log_failures_reported_not_raised (now ip : String)
    (port : Int) (d : List Nat) (sOk : Bool) (rest : List Iter) :
    (∀ writeOk, log_activityE now ip port d writeOk =
      Except.ok (log_activity now ip port d writeOk)) ∧
    log_activity now ip port d false = ⟨none, true⟩ ∧
    log_activity now ip port d true =
      ⟨some (mkEntry now ip port d), false⟩ ∧
    (∀ w₁ w₂ : Bool,
      eraseW (runLoop ip port
          (⟨RecvOutcome.bytes d, now, w₁, sOk⟩ :: rest)).1 =
        eraseW (runLoop ip port
          (⟨RecvOutcome.bytes d, now, w₂, sOk⟩ :: rest)).1 ∧
      (runLoop ip port (⟨RecvOutcome.bytes d, now, w₁, sOk⟩ :: rest)).2 =
        (runLoop ip port
          (⟨RecvOutcome.bytes d, now, w₂, sOk⟩ :: rest)).2) := by
  refine ⟨fun w => by cases w <;> rfl, rfl, rfl, fun w₁ w₂ => ?_⟩
  by_cases hd : d = []
  · simp [runLoop, hd]
  · by_cases hs : sOk = true <;>
      simp [runLoop, hd, hs, eraseW, List.map_append]

/-- Re-encoding a one-byte (ASCII) code point gives back the byte. -/
lemma encodeChar_one {b : Nat} (h : b ≤ 0x7F) :
    utf8EncodeChar b = [b] := by
  simp [utf8EncodeChar, h]

/-- Re-encoding the code point decoded from a valid two-byte sequence
gives back exactly those two bytes. -/
lemma encodeChar_two {b c1 : Nat} (hb1 : 0xC2 ≤ b) (hb2 : b ≤ 0xDF)
    (hc1 : 0x80 ≤ c1) (hc2 : c1 ≤ 0xBF) :
    utf8EncodeChar ((b - 0xC0) * 0x40 + (c1 - 0x80)) = [b, c1] := by
  have h1 : ¬((b - 0xC0) * 0x40 + (c1 - 0x80) ≤ 0x7F) := by omega
  have h2 : (b - 0xC0) * 0x40 + (c1 - 0x80) ≤ 0x7FF := by omega
  simp only [utf8EncodeChar, if_neg h1, if_pos h2, List.cons.injEq,
    and_true]
  omega

/-- Re-encoding the code point decoded from a valid three-byte sequence
gives back exactly those three bytes. -/
lemma encodeChar_three {b c1 c2 : Nat} (hb1 : 0xE0 ≤ b) (hb2 : b ≤ 0xEF)
    (hc1a : 0x80 ≤ c1) (hc1b : c1 ≤ 0xBF) (hc1e : b = 0xE0 → 0xA0 ≤ c1)
    (hc2a : 0x80 ≤ c2) (hc2b : c2 ≤ 0xBF) :
    utf8EncodeChar
        ((b - 0xE0) * 0x1000 + (c1 - 0x80) * 0x40 + (c2 - 0x80)) =
      [b, c1, c2] := by
  have hlow :
      0x800 ≤ (b - 0xE0) * 0x1000 + (c1 - 0x80) * 0x40 + (c2 - 0x80) := by
    by_cases hb0 : b = 0xE0
    · have := hc1e hb0
      omega
    · omega
  have h1 : ¬((b - 0xE0) * 0x1000 + (c1 - 0x80) * 0x40 + (c2 - 0x80)
      ≤ 0x7F) := by omega
  have h2 : ¬((b - 0xE0) * 0x1000 + (c1 - 0x80) * 0x40 + (c2 - 0x80)
      ≤ 0x7FF) := by omega
  have h3 : (b - 0xE0) * 0x1000 + (c1 - 0x80) * 0x40 + (c2 - 0x80)
      ≤ 0xFFFF := by omega
  simp only [utf8EncodeChar, if_neg h1, if_neg h2, if_pos h3,
    List.cons.injEq, and_true]
  omega

/-- Re-encoding the code point decoded from a valid four-byte sequence
gives back exactly those four bytes. -/
lemma encodeChar_four {b c1 c2 c3 : Nat} (hb1 : 0xF0 ≤ b)
    (hb2 : b ≤ 0xF4) (hc1a : 0x80 ≤ c1) (hc1b : c1 ≤ 0xBF)
    (hc1f : b = 0xF0 → 0x90 ≤ c1) (hc2a : 0x80 ≤ c2) (hc2b : c2 ≤ 0xBF)
    (hc3a : 0x80 ≤ c3) (hc3b : c3 ≤ 0xBF) :
    utf8EncodeChar ((b - 0xF0) * 0x40000 + (c1 - 0x80) * 0x1000 +
        (c2 - 0x80) * 0x40 + (c3 - 0x80)) =
      [b, c1, c2, c3] := by
  have hlow : 0x10000 ≤ (b - 0xF0) * 0x40000 + (c1 - 0x80) * 0x1000 +
      (c2 - 0x80) * 0x40 + (c3 - 0x80) := by
    by_cases hb0 : b = 0xF0
    · have := hc1f hb0
      omega
    · omega
  have h1 : ¬((b - 0xF0) * 0x40000 + (c1 - 0x80) * 0x1000 +
      (c2 - 0x80) * 0x40 + (c3 - 0x80) ≤ 0x7F) := by omega
  have h2 : ¬((b - 0xF0) * 0x40000 + (c1 - 0x80) * 0x1000 +
      (c2 - 0x80) * 0x40 + (c3 - 0x80) ≤ 0x7FF) := by omega
  have h3 : ¬((b - 0xF0) * 0x40000 + (c1 - 0x80) * 0x1000 +
      (c2 - 0x80) * 0x40 + (c3 - 0x80) ≤ 0xFFFF) := by omega
  simp only [utf8EncodeChar, if_neg h1, if_neg h2, if_neg h3,
    List.cons.injEq, and_true]
  omega

/-- Whatever the decoder produces, its UTF-8 re-encoding is a
subsequence of the input bytes: ignored bytes are dropped, and nothing
(in particular no replacement character) is ever inserted. -/
lemma encode_decodeFuel_sublist :
    ∀ (fuel : Nat) (bs : List Nat),
      List.Sublist (utf8Encode (utf8DecodeIgnoreFuel fuel bs)) bs := by
  intro fuel
  induction fuel with
  | zero =>
    intro bs
    simp [utf8DecodeIgnoreFuel, utf8Encode]
  | succ n ih =>
    intro bs
    cases bs with
    | nil => simp [utf8DecodeIgnoreFuel, utf8Encode]
    | cons b t =>
      by_cases h1 : b ≤ 0x7F
      · have hstep : utf8DecodeIgnoreFuel (n + 1) (b :: t) =
            b :: utf8DecodeIgnoreFuel n t := by
          simp [utf8DecodeIgnoreFuel, h1]
        rw [hstep, utf8Encode, List.flatMap_cons, encodeChar_one h1]
        exact (ih t).cons₂ b
      by_cases h2 : b ≤ 0xC1
      · have hstep : utf8DecodeIgnoreFuel (n + 1) (b :: t) =
            utf8DecodeIgnoreFuel n t := by
          simp [utf8DecodeIgnoreFuel, h1, h2]
        rw [hstep]
        exact (ih t).cons b
      by_cases h3 : b ≤ 0xDF
      · cases t with
        | nil =>
          have hstep : utf8DecodeIgnoreFuel (n + 1) [b] = [] := by
            simp [utf8DecodeIgnoreFuel, h1, h2, h3]
          rw [hstep]
          simp [utf8Encode]
        | cons c1 t1 =>
          by_cases hc : isCont c1 = true
          · have hstep : utf8DecodeIgnoreFuel (n + 1) (b :: c1 :: t1) =
                ((b - 0xC0) * 0x40 + (c1 - 0x80)) ::
                  utf8DecodeIgnoreFuel n t1 := by
              simp [utf8DecodeIgnoreFuel, h1, h2, h3, hc]
            have hcb : 0x80 ≤ c1 ∧ c1 ≤ 0xBF := by
              simpa [isCont] using hc
            rw [hstep, utf8Encode, List.flatMap_cons,
              encodeChar_two (by omega) h3 hcb.1 hcb.2]
            exact ((ih t1).cons₂ c1).cons₂ b
          · have hstep : utf8DecodeIgnoreFuel (n + 1) (b :: c1 :: t1) =
                utf8DecodeIgnoreFuel n (c1 :: t1) := by
              simp [utf8DecodeIgnoreFuel, h1, h2, h3, hc]
            rw [hstep]
            exact (ih (c1 :: t1)).cons b
      by_cases h4 : b ≤ 0xEF
      · cases t with
        | nil =>
          have hstep : utf8DecodeIgnoreFuel (n + 1) [b] = [] := by
            simp [utf8DecodeIgnoreFuel, h1, h2, h3, h4]
          rw [hstep]
          simp [utf8Encode]
        | cons c1 t1 =>
          by_cases hg : (if b = 0xE0 then (0xA0 : Nat) else 0x80) ≤ c1 ∧
              c1 ≤ (if b = 0xED then (0x9F : Nat) else 0xBF)
          · cases t1 with
            | nil =>
              have hstep : utf8DecodeIgnoreFuel (n + 1) [b, c1] = [] := by
                simp [utf8DecodeIgnoreFuel, h1, h2, h3, h4, hg]
              rw [hstep]
              simp [utf8Encode]
            | cons c2 t2 =>
              by_cases hc2 : isCont c2 = true
              · have hstep :
                    utf8DecodeIgnoreFuel (n + 1) (b :: c1 :: c2 :: t2) =
                      ((b - 0xE0) * 0x1000 + (c1 - 0x80) * 0x40 +
                        (c2 - 0x80)) :: utf8DecodeIgnoreFuel n t2 := by
                  simp [utf8DecodeIgnoreFuel, h1, h2, h3, h4, hg, hc2]
                have hc1a : 0x80 ≤ c1 := by
                  rcases hg with ⟨hA, _⟩
                  split_ifs at hA <;> omega
                have hc1b : c1 ≤ 0xBF := by
                  rcases hg with ⟨_, hB⟩
                  split_ifs at hB <;> omega
                have hc1e : b = 0xE0 → 0xA0 ≤ c1 := by
                  intro hb0
                  rcases hg with ⟨hA, _⟩
                  rwa [if_pos hb0] at hA
                have hcb2 : 0x80 ≤ c2 ∧ c2 ≤ 0xBF := by
                  simpa [isCont] using hc2
                rw [hstep, utf8Encode, List.flatMap_cons,
                  encodeChar_three (by omega) h4 hc1a hc1b hc1e
                    hcb2.1 hcb2.2]
                exact (((ih t2).cons₂ c2).cons₂ c1).cons₂ b
              · have hstep :
                    utf8DecodeIgnoreFuel (n + 1) (b :: c1 :: c2 :: t2) =
                      utf8DecodeIgnoreFuel n (c2 :: t2) := by
                  simp [utf8DecodeIgnoreFuel, h1, h2, h3, h4, hg, hc2]
                rw [hstep]
                exact ((ih (c2 :: t2)).cons c1).cons b
          · have hstep : utf8DecodeIgnoreFuel (n + 1) (b :: c1 :: t1) =
                utf8DecodeIgnoreFuel n (c1 :: t1) := by
              simp [utf8DecodeIgnoreFuel, h1, h2, h3, h4, hg]
            rw [hstep]
            exact (ih (c1 :: t1)).cons b
      by_cases h5 : b ≤ 0xF4
      · cases t with
        | nil =>
          have hstep : utf8DecodeIgnoreFuel (n + 1) [b] = [] := by
            simp [utf8DecodeIgnoreFuel, h1, h2, h3, h4, h5]
          rw [hstep]
          simp [utf8Encode]
        | cons c1 t1 =>
          by_cases hg : (if b = 0xF0 then (0x90 : Nat) else 0x80) ≤ c1 ∧
              c1 ≤ (if b = 0xF4 then (0x8F : Nat) else 0xBF)
          · cases t1 with
            | nil =>
              have hstep : utf8DecodeIgnoreFuel (n + 1) [b, c1] = [] := by
                simp [utf8DecodeIgnoreFuel, h1, h2, h3, h4, h5, hg]
              rw [hstep]
              simp [utf8Encode]
            | cons c2 t2 =>
              by_cases hc2 : isCont c2 = true
              · cases t2 with
                | nil =>
                  have hstep :
                      utf8DecodeIgnoreFuel (n + 1) [b, c1, c2] = [] := by
                    simp [utf8DecodeIgnoreFuel, h1, h2, h3, h4, h5, hg,
                      hc2]
                  rw [hstep]
                  simp [utf8Encode]
                | cons c3 t3 =>
                  by_cases hc3 : isCont c3 = true
                  · have hstep :
                        utf8DecodeIgnoreFuel (n + 1)
                            (b :: c1 :: c2 :: c3 :: t3) =
                          ((b - 0xF0) * 0x40000 + (c1 - 0x80) * 0x1000 +
                            (c2 - 0x80) * 0x40 + (c3 - 0x80)) ::
                            utf8DecodeIgnoreFuel n t3 := by
                      simp [utf8DecodeIgnoreFuel, h1, h2, h3, h4, h5,
                        hg, hc2, hc3]
                    have hc1a : 0x80 ≤ c1 := by
                      rcases hg with ⟨hA, _⟩
                      split_ifs at hA <;> omega
                    have hc1b : c1 ≤ 0xBF := by
                      rcases hg with ⟨_, hB⟩
                      split_ifs at hB <;> omega
                    have hc1f : b = 0xF0 → 0x90 ≤ c1 := by
                      intro hb0
                      rcases hg with ⟨hA, _⟩
                      rwa [if_pos hb0] at hA
                    have hcb2 : 0x80 ≤ c2 ∧ c2 ≤ 0xBF := by
                      simpa [isCont] using hc2
                    have hcb3 : 0x80 ≤ c3 ∧ c3 ≤ 0xBF := by
                      simpa [isCont] using hc3
                    rw [hstep, utf8Encode, List.flatMap_cons,
                      encodeChar_four (by omega) h5 hc1a hc1b hc1f
                        hcb2.1 hcb2.2 hcb3.1 hcb3.2]
                    exact ((((ih t3).cons₂ c3).cons₂ c2).cons₂ c1).cons₂ b
                  · have hstep :
                        utf8DecodeIgnoreFuel (n + 1)
                            (b :: c1 :: c2 :: c3 :: t3) =
                          utf8DecodeIgnoreFuel n (c3 :: t3) := by
                      simp [utf8DecodeIgnoreFuel, h1, h2, h3, h4, h5,
                        hg, hc2, hc3]
                    rw [hstep]
                    exact (((ih (c3 :: t3)).cons c2).cons c1).cons b
              · have hstep :
                    utf8DecodeIgnoreFuel (n + 1) (b :: c1 :: c2 :: t2) =
                      utf8DecodeIgnoreFuel n (c2 :: t2) := by
                  simp [utf8DecodeIgnoreFuel, h1, h2, h3, h4, h5, hg,
                    hc2]
                rw [hstep]
                exact ((ih (c2 :: t2)).cons c1).cons b
          · have hstep : utf8DecodeIgnoreFuel (n + 1) (b :: c1 :: t1) =
                utf8DecodeIgnoreFuel n (c1 :: t1) := by
              simp [utf8DecodeIgnoreFuel, h1, h2, h3, h4, h5, hg]
            rw [hstep]
            exact (ih (c1 :: t1)).cons b
      · have hstep : utf8DecodeIgnoreFuel (n + 1) (b :: t) =
            utf8DecodeIgnoreFuel n t := by
          simp [utf8DecodeIgnoreFuel, h1, h2, h3, h4, h5]
        rw [hstep]
        exact (ih t).cons b

/-- `utf8DecodeIgnore` version of the re-encoding property. -/
lemma encode_decode_sublist (bs : List Nat) :
    List.Sublist (utf8Encode (utf8DecodeIgnore bs)) bs :=
  encode_decodeFuel_sublist bs.length bs

end Honeypot

namespace Honeypot

/-- C3 counterexample: the code decodes with `errors='ignore'`, not
`errors='replace'`. Receiving the bytes `FF 6C 73 0A` (an invalid byte
followed by `"ls\n"`) yields the logged text `"ls\n"`: the undecodable
byte is dropped, and no replacement character U+FFFD appears — the
claim's prediction that invalid sequences show up as replacement
characters is false. -/
theorem decode_ignore_no_replacement_char_cex :
    (mkEntry "2026-01-01T00:00:00" "203.0.113.7" 22
        [255, 108, 115, 10]).data = strCodes "ls\n" ∧
    (0xFFFD ∈ (mkEntry "2026-01-01T00:00:00" "203.0.113.7" 22
        [255, 108, 115, 10]).data → False) ∧
    utf8DecodeIgnore [255] = [] := by
  exact ⟨by decide, by decide, by decide⟩

/-- C3 amended: decoding of the received bytes never fails, but
undecodable byte sequences are silently dropped (`errors='ignore'`)
rather than replaced: the logged text's UTF-8 re-encoding is a
subsequence of the received bytes, so nothing — in particular no
replacement character — is ever introduced. -/
theorem decode_ignore_drops_invalid_bytes (now ip : String)
    (port : Int) (bs : List Nat) :
    (mkEntry now ip port bs).data = utf8DecodeIgnore bs ∧
    List.Sublist (utf8Encode (utf8DecodeIgnore bs)) bs :=
  ⟨rfl, encode_decode_sublist bs⟩

end Honeypot
